import Mathlib

/-!
Verification of go-namedParameterQuery.

The repository translates SQL written with named placeholders (`:name`)
into positional (`?`) form and produces the ordered argument list.
The decorator layer (`convertArgsToMap`, `parse`, the DB / connection /
statement wrappers) is transcribed from the Go sources.  The core
tokenizer/rewriter and parameter registry are not among the provided
sources (only their tests and callers are), so they are modelled from
the specification.
-/

namespace NamedParam

/-- Modelled from the spec: the identifier-character class `[A-Za-z0-9_]`
used by the tokenizer (spec section 4.1, rule 2). -/
def isIdentChar (c : Char) : Bool :=
  decide (('A' ≤ c ∧ c ≤ 'Z') ∨ ('a' ≤ c ∧ c ≤ 'z') ∨ ('0' ≤ c ∧ c ≤ '9') ∨ c = '_')

/-- Whether the first character of a list is an identifier character. -/
def headIsIdent : List Char → Bool
  | [] => false
  | c :: _ => isIdentChar c

/-- Modelled from the spec: the single left-to-right scan of the
tokenizer/rewriter (spec section 4.1).  The missing Go source is the
core `NamedParameterQuery` parser.  State: `inLiteral` is the
"inside single-quoted literal" flag, toggled on each `'` (the spec
defines no escape mechanism, so every quote toggles); `tok` is
`some acc` while the scan is consuming the identifier characters of a
parameter token whose name so far is `acc` reversed.  Outside a
literal a `:` immediately followed by an identifier character starts a
token, is replaced by `?`, and the greedily-extended name is appended
to the occurrence log; every other character is copied verbatim.
Returns the rewritten text and the ordered occurrence log. -/
def scanCore : Bool → Option (List Char) → List Char → List Char × List String
  | _, none, [] => ([], [])
  | _, some acc, [] => ([], [String.mk acc.reverse])
  | inLit, some acc, c :: rest =>
    if isIdentChar c then
      scanCore inLit (some (c :: acc)) rest
    else if c = '\'' then
      let r := scanCore (!inLit) none rest
      ('\'' :: r.1, String.mk acc.reverse :: r.2)
    else if inLit = false ∧ c = ':' ∧ headIsIdent rest = true then
      let r := scanCore false (some []) rest
      ('?' :: r.1, String.mk acc.reverse :: r.2)
    else
      let r := scanCore inLit none rest
      (c :: r.1, String.mk acc.reverse :: r.2)
  | inLit, none, c :: rest =>
    if c = '\'' then
      let r := scanCore (!inLit) none rest
      ('\'' :: r.1, r.2)
    else if inLit = false ∧ c = ':' ∧ headIsIdent rest = true then
      let r := scanCore false (some []) rest
      ('?' :: r.1, r.2)
    else
      let r := scanCore inLit none rest
      (c :: r.1, r.2)

/-- Modelled from the spec: `parse(rawQuery) -> ParsedQuery` starts the
scan outside any literal and outside any token. -/
def scanQuery (inLiteral : Bool) (cs : List Char) : List Char × List String :=
  scanCore inLiteral none cs

/-- The "inside single-quoted literal" state after scanning a list of
characters, starting from a given state: toggled on each `'`. -/
def literalStateAfter : Bool → List Char → Bool
  | st, [] => st
  | st, c :: rest => literalStateAfter (if c = '\'' then !st else st) rest

/-- A Go `any` value as it appears in this library's argument lists:
a string, an integer, a float stand-in, a `map[string]any`, or `nil`.
Values are opaque to the library and only strings (keys) and maps are
inspected, so this fixed universe is faithful for every claim. -/
inductive GoValue where
  | vstr (s : String)
  | vint (n : Int)
  | vmap (entries : List (String × GoValue))
  | vnil
deriving Repr

/-- A Go `map[string]any`, represented as an association list with
distinct keys (every map this development builds goes through
`mapSet`, which overwrites in place like a Go map assignment). -/
abbrev GoMap := List (String × GoValue)

/-- Go map assignment `m[k] = v`: overwrite the entry for `k` in place
if present, append it otherwise. -/
def mapSet : GoMap → String → GoValue → GoMap
  | [], k, v => [(k, v)]
  | p :: rest, k, v => if p.1 = k then (k, v) :: rest else p :: mapSet rest k v

/-- Go map lookup `m[k]`: `none` means the key was never set. -/
def lookupMap : GoMap → String → Option GoValue
  | [], _ => none
  | p :: rest, k => if p.1 = k then some p.2 else lookupMap rest k

/-- The binding a list of name/value pairs gives a name when every later
pair for the same name overwrites earlier ones (Go map semantics for a
sequence of assignments in list order). -/
def lookupLastPair : List (String × GoValue) → String → Option GoValue
  | [], _ => none
  | p :: rest, k =>
    match lookupLastPair rest k with
    | some v => some v
    | none => if p.1 = k then some p.2 else none

/-- Modelled from the spec: `ParsedQuery` together with the parameter
registry it owns (spec section 3): the rewritten text, the ordered
occurrence log, and the name-to-value registry. -/
structure Query where
  rewrittenText : List Char
  occurrences : List String
  registry : GoMap

/-- Modelled from the spec: parsing a raw query scans it once and
starts with an empty registry (the missing Go constructor
`NewQuery` / `NewNamedParameterQuery`). -/
def NewQuery (s : String) : Query :=
  let r := scanQuery false s.data
  ⟨r.1, r.2, []⟩

/-- Modelled from the spec: `setValue` inserts or overwrites one
binding (the missing Go method `SetValue`). -/
def Query.setValue (q : Query) (name : String) (value : GoValue) : Query :=
  { q with registry := mapSet q.registry name value }

/-- Modelled from the spec: `setValuesFromMapping` merges every entry of
a mapping into the registry, later entries overwriting earlier ones and
absent names left untouched (the missing Go method `SetValuesFromMap`).
Go map iteration order is unspecified; list order is one refinement. -/
def Query.setValuesFromMap (q : Query) (m : GoMap) : Query :=
  { q with registry := m.foldl (fun r p => mapSet r p.1 p.2) q.registry }

/-- Modelled from the spec: the rewritten query text (the missing Go
method `GetParsedQuery`). -/
def Query.getParsedQuery (q : Query) : String :=
  String.mk q.rewrittenText

/-- Modelled from the spec: the output builder `resolve(occurrences,
registry)` (spec section 4.3): one value per occurrence, in textual
order; `none` is the "never set" marker. -/
def resolveParameters (occurrences : List String) (registry : GoMap) :
    List (Option GoValue) :=
  occurrences.map (lookupMap registry)

/-- Modelled from the spec: the ordered value list of a query (the
missing Go method `GetParsedParameters`). -/
def Query.getParsedParameters (q : Query) : List (Option GoValue) :=
  resolveParameters q.occurrences q.registry

/-- Whether a value is a Go string (the decorator's key check). -/
def GoValue.isStr : GoValue → Bool
  | .vstr _ => true
  | _ => false

/-- Whether an argument list is a single `map[string]any` element. -/
def isSingleMap : List GoValue → Bool
  | [GoValue.vmap _] => true
  | _ => false

/-- The loop of `convertArgsToMap` (src/unnamed/part_005): walk the
arguments two at a time, requiring a string in every name position and
assigning into the map being built. -/
def buildPairs : GoMap → List GoValue → Except String GoMap
  | m, [] => .ok m
  | m, GoValue.vstr k :: v :: rest => buildPairs (mapSet m k v) rest
  | _, _ :: _ :: _ => .error "parameter representing a key needs to be a string"
  | _, [_] => .error "parameter representing a key needs to be a string"

/-- `convertArgsToMap` from src/unnamed/part_005: empty arguments give
the nil map, a single map element passes straight through, an odd
count is rejected, and otherwise the arguments are read as
name/value pairs.  `none` models Go's nil map. -/
def convertArgsToMap (args : List GoValue) : Except String (Option GoMap) :=
  match args with
  | [] => .ok none
  | [GoValue.vmap m] => .ok (some m)
  | _ =>
    if args.length % 2 ≠ 0 then
      .error "number of arguments passed to parameterized query is not correct, expected an even number of arguments"
    else
      (buildPairs [] args).map some

/-- Whether an `Except` result is an error. -/
def isError {ε α : Type} : Except ε α → Bool
  | .error _ => true
  | .ok _ => false

/-- Spec-side description of "a non-string entry in a name position":
walking the list two at a time, some name position is not a string. -/
def hasBadKey : List GoValue → Bool
  | [] => false
  | [k] => !k.isStr
  | k :: _ :: rest => !k.isStr || hasBadKey rest

/-- Spec-side description of the pairs an even, well-formed flat
argument list denotes, in order. -/
def pairsOf : List GoValue → List (String × GoValue)
  | [] => []
  | [_] => []
  | k :: v :: rest =>
    match k with
    | GoValue.vstr s => (s, v) :: pairsOf rest
    | _ => []

/-- `parse` from src/unnamed/part_005: convert the arguments, parse the
query, merge the (possibly nil) map, and return the rewritten text and
ordered values. -/
def parseQueryArgs (query : String) (args : List GoValue) :
    Except String (String × List (Option GoValue)) :=
  match convertArgsToMap args with
  | .error e => .error e
  | .ok mapped =>
    let q := (NewQuery query).setValuesFromMap (mapped.getD [])
    .ok (q.getParsedQuery, q.getParsedParameters)

/-- The call a DB / connection / transaction wrapper method finally
makes on the underlying driver: either the explicit zero-argument form
or the form carrying the ordered value list. -/
inductive DriverCall where
  | zeroArg (query : String)
  | withArgs (query : String) (params : List (Option GoValue))
deriving Repr

/-- The dispatch shared by every `Query`/`QueryRow`/`Exec` method (and
Context variant) of the DB object and connection wrappers
(src/unnamed/part_000 `execute` and the methods of
src/namedparameter/conn.go): parse, then call the driver with zero
arguments when the resolved list is empty and with the full list
otherwise. -/
def executeWrapper (query : String) (args : List GoValue) :
    Except String DriverCall :=
  match parseQueryArgs query args with
  | .error e => .error e
  | .ok (pq, params) =>
    if params.length = 0 then .ok (.zeroArg pq)
    else .ok (.withArgs pq params)

/-- The call a statement wrapper method makes on its prepared
`sql.Stmt` (the query text was fixed at prepare time). -/
inductive StmtCall where
  | zeroArg
  | withArgs (params : List (Option GoValue))
deriving Repr

/-- `(*DBObjectWrapper).Prepare` from src/namedparameter/statement.go:
the wrapper keeps one parsed query for its whole lifetime. -/
def stmtPrepare (query : String) : Query :=
  NewQuery query

/-- The dispatch shared by every method of the statement wrapper
(src/namedparameter/statement.go `Query`/`Exec`/... and Context
variants): convert the arguments; a nil map means a zero-argument call
and no registry change, otherwise merge into the persistent parsed
query and pass its resolved values.  Returns the driver call and the
wrapper's parsed query afterwards. -/
def stmtExecute (q : Query) (args : List GoValue) :
    Except String (StmtCall × Query) :=
  match convertArgsToMap args with
  | .error e => .error e
  | .ok none => .ok (.zeroArg, q)
  | .ok (some m) =>
    let q' := q.setValuesFromMap m
    .ok (.withArgs q'.getParsedParameters, q')

/-- Number of occurrence-log entries the scan state still owes: one
while a token is being consumed, none otherwise. -/
def tokPending : Option (List Char) → Nat
  | none => 0
  | some _ => 1

theorem ident_ne_quote {c : Char} (h : isIdentChar c = true) : c ≠ '\'' := by
  intro hc
  subst hc
  exact absurd h (by decide)

theorem ident_ne_colon {c : Char} (h : isIdentChar c = true) : c ≠ ':' := by
  intro hc
  subst hc
  exact absurd h (by decide)

theorem literalStateAfter_cons (st : Bool) (c : Char) (rest : List Char) :
    literalStateAfter st (c :: rest) =
      literalStateAfter (if c = '\'' then !st else st) rest := rfl

theorem literalStateAfter_cons_ne (st : Bool) {c : Char} (rest : List Char)
    (h : c ≠ '\'') :
    literalStateAfter st (c :: rest) = literalStateAfter st rest := by
  simp [literalStateAfter, h]

/-- Ending a token at a non-identifier character behaves exactly like the
token-free scan of the same input, with the finished name prepended to
the occurrence log. -/
theorem scanCore_flush (st : Bool) (acc : List Char) {c : Char}
    (rest : List Char) (h : isIdentChar c = false) :
    scanCore st (some acc) (c :: rest) =
      ((scanCore st none (c :: rest)).1,
       String.mk acc.reverse :: (scanCore st none (c :: rest)).2) := by
  by_cases hq : c = '\''
  · subst hq
    simp [scanCore, h]
  · by_cases hcol : st = false ∧ c = ':' ∧ headIsIdent rest = true
    · obtain ⟨hst, hc, hh⟩ := hcol
      subst hst
      subst hc
      simp [scanCore, h, hh]
    · simp [scanCore, h, hq, hcol]

/-- A token in progress consumes exactly the maximal identifier-character
prefix of the remaining input as its name, then the scan continues
token-free on the rest. -/
theorem scanCore_token (cs : List Char) : ∀ acc : List Char,
    scanCore false (some acc) cs =
      ((scanCore false none (cs.dropWhile isIdentChar)).1,
       String.mk (acc.reverse ++ cs.takeWhile isIdentChar) ::
         (scanCore false none (cs.dropWhile isIdentChar)).2) := by
  induction cs with
  | nil => intro acc; simp [scanCore]
  | cons c rest ih =>
    intro acc
    by_cases hc : isIdentChar c = true
    · rw [List.takeWhile_cons_of_pos hc, List.dropWhile_cons_of_pos hc]
      have step : scanCore false (some acc) (c :: rest) =
          scanCore false (some (c :: acc)) rest := by
        simp [scanCore, hc]
      rw [step, ih (c :: acc)]
      simp [List.append_assoc]
    · have hc' : isIdentChar c = false := by
        cases h : isIdentChar c
        · rfl
        · exact absurd h hc
      rw [List.takeWhile_cons_of_neg (by simp [hc']),
        List.dropWhile_cons_of_neg (by simp [hc']),
        scanCore_flush false acc rest hc']
      simp

theorem headIsIdent_append (xs ys : List Char)
    (hys : ∀ c, ys.head? = some c → isIdentChar c = false) :
    headIsIdent (xs ++ ys) = headIsIdent xs := by
  cases xs with
  | nil =>
    cases ys with
    | nil => rfl
    | cons c rest =>
      simp [headIsIdent, hys c rfl]
  | cons x xs' => rfl

/-- Scanning a concatenation splits at the boundary whenever the suffix
cannot extend an identifier token across it: the suffix is scanned
token-free, from the literal state the prefix leaves behind. -/
theorem scanCore_append (xs : List Char) :
    ∀ (st : Bool) (tok : Option (List Char)) (ys : List Char),
    (∀ c, ys.head? = some c → isIdentChar c = false) →
    scanCore st tok (xs ++ ys) =
      ((scanCore st tok xs).1 ++ (scanCore (literalStateAfter st xs) none ys).1,
       (scanCore st tok xs).2 ++ (scanCore (literalStateAfter st xs) none ys).2) := by
  induction xs with
  | nil =>
    intro st tok ys hys
    cases tok with
    | none => simp [scanCore, literalStateAfter]
    | some acc =>
      cases ys with
      | nil => simp [scanCore, literalStateAfter]
      | cons c rest =>
        have hc := hys c rfl
        rw [List.nil_append, scanCore_flush st acc rest hc]
        simp [scanCore, literalStateAfter]
  | cons x xs' ih =>
    intro st tok ys hys
    have heq : headIsIdent (xs' ++ ys) = headIsIdent xs' :=
      headIsIdent_append xs' ys hys
    cases tok with
    | some acc =>
      by_cases hx : isIdentChar x = true
      · have hxq : x ≠ '\'' := ident_ne_quote hx
        simp only [List.cons_append]
        simp only [scanCore, hx, if_true, literalStateAfter, hxq, if_false]
        exact ih st (some (x :: acc)) ys hys
      · by_cases hq : x = '\''
        · subst hq
          simp only [List.cons_append]
          simp only [scanCore, hx, Bool.false_eq_true, if_false, if_true,
            if_pos rfl]
          rw [literalStateAfter_cons st '\'' xs', if_pos rfl,
            ih (!st) none ys hys]
          simp
        · by_cases hcol : st = false ∧ x = ':' ∧ headIsIdent xs' = true
          · obtain ⟨hst, hxc, hh⟩ := hcol
            subst hst
            subst hxc
            simp only [List.cons_append]
            simp only [scanCore, hx, Bool.false_eq_true, if_false,
              if_neg (show ¬(':' : Char) = '\'' from by decide),
              heq, hh, and_self, if_pos (by simp : false = false ∧ True ∧ True)]
            rw [literalStateAfter_cons_ne false xs'
              (show (':' : Char) ≠ '\'' from by decide),
              ih false (some []) ys hys]
            simp
          · have hcol' : ¬(st = false ∧ x = ':' ∧ headIsIdent (xs' ++ ys) = true) := by
              rw [heq]; exact hcol
            simp only [List.cons_append]
            simp only [scanCore, hx, Bool.false_eq_true, if_false,
              if_neg hq, if_neg hcol', if_neg hcol]
            rw [literalStateAfter_cons_ne st xs' hq,
              ih st none ys hys]
            simp
    | none =>
      by_cases hq : x = '\''
      · subst hq
        simp only [List.cons_append]
        simp only [scanCore, if_pos rfl]
        rw [literalStateAfter_cons st '\'' xs', if_pos rfl,
          ih (!st) none ys hys]
        simp
      · by_cases hcol : st = false ∧ x = ':' ∧ headIsIdent xs' = true
        · obtain ⟨hst, hxc, hh⟩ := hcol
          subst hst
          subst hxc
          simp only [List.cons_append]
          simp only [scanCore,
            if_neg (show ¬(':' : Char) = '\'' from by decide),
            heq, hh, and_self, if_pos (by simp : false = false ∧ True ∧ True)]
          rw [literalStateAfter_cons_ne false xs'
            (show (':' : Char) ≠ '\'' from by decide),
            ih false (some []) ys hys]
          simp
        · have hcol' : ¬(st = false ∧ x = ':' ∧ headIsIdent (xs' ++ ys) = true) := by
            rw [heq]; exact hcol
          simp only [List.cons_append]
          simp only [scanCore, if_neg hq, if_neg hcol', if_neg hcol]
          rw [literalStateAfter_cons_ne st xs' hq,
            ih st none ys hys]
          simp

/-- Inside a single-quoted literal every character up to the closing
quote is copied verbatim and produces no occurrence; the closing quote
returns the scan to the outside state. -/
theorem scanCore_inLiteral (body : List Char) : ∀ post : List Char,
    '\'' ∉ body →
    scanCore true none (body ++ '\'' :: post) =
      (body ++ '\'' :: (scanCore false none post).1,
       (scanCore false none post).2) := by
  induction body with
  | nil => intro post _; simp [scanCore]
  | cons c rest ih =>
    intro post h
    have hc : c ≠ '\'' := by
      intro hc; exact h (hc ▸ List.mem_cons_self c rest)
    have hrest : '\'' ∉ rest := fun hm => h (List.mem_cons_of_mem c hm)
    simp only [List.cons_append]
    simp only [scanCore, if_neg hc,
      if_neg (show ¬(true = false ∧ c = ':' ∧ headIsIdent (rest ++ '\'' :: post) = true) from by simp)]
    rw [ih post hrest]

/-- Claim C2: a `:name`-shaped substring inside a single-quoted literal
never produces an occurrence entry and is copied verbatim: for any
prefix that leaves the scan outside a literal, any quote-free literal
body, and any suffix, the parse of the whole query is the parse of the
prefix, then the quoted body verbatim, then the parse of the suffix,
and the occurrence log is exactly that of prefix and suffix.  The
prefix and suffix are arbitrary, so any number of quoted substrings,
and unquoted uses of the same name elsewhere, are covered. -/
theorem quoted_literal_protected (pre body post : List Char)
    (hpre : literalStateAfter false pre = false) (hbody : '\'' ∉ body) :
    scanQuery false (pre ++ ('\'' :: (body ++ ('\'' :: post)))) =
      ((scanQuery false pre).1 ++ ('\'' :: (body ++ ('\'' :: (scanQuery false post).1))),
       (scanQuery false pre).2 ++ (scanQuery false post).2) := by
  unfold scanQuery
  rw [scanCore_append pre false none ('\'' :: (body ++ ('\'' :: post)))
    (by intro c h; have hc : c = '\'' := (by simpa using h.symm); subst hc; decide),
    hpre]
  have inner : scanCore false none ('\'' :: (body ++ ('\'' :: post))) =
      ('\'' :: (body ++ ('\'' :: (scanCore false none post).1)),
       (scanCore false none post).2) := by
    rw [show scanCore false none ('\'' :: (body ++ ('\'' :: post))) =
        ('\'' :: (scanCore true none (body ++ ('\'' :: post))).1,
         (scanCore true none (body ++ ('\'' :: post))).2) from by simp [scanCore],
      scanCore_inLiteral body post hbody]
  rw [inner]

/-- Witness for C2 at the repository's own ParametersInQuotes2 test
query: prefix, quoted `:literal` body, and suffix containing the same
name unquoted. -/
theorem quoted_literal_protected_witness :
    literalStateAfter false "SELECT * FROM table WHERE col1 = ".data = false ∧
    '\'' ∉ ":literal".data ∧
    scanQuery false ("SELECT * FROM table WHERE col1 = ".data ++ ('\'' :: (":literal".data ++ ('\'' :: " AND col2 = :literal".data)))) =
      ((scanQuery false "SELECT * FROM table WHERE col1 = ".data).1 ++ ('\'' :: (":literal".data ++ ('\'' :: (scanQuery false " AND col2 = :literal".data).1))),
       (scanQuery false "SELECT * FROM table WHERE col1 = ".data).2 ++ (scanQuery false " AND col2 = :literal".data).2) :=
  ⟨by decide, by decide,
    quoted_literal_protected "SELECT * FROM table WHERE col1 = ".data
      ":literal".data " AND col2 = :literal".data (by decide) (by decide)⟩

/-- Claim C3: outside a literal, a `:` followed by at least one
identifier character starts a token: the name extends greedily through
the maximal identifier-character run, the whole token is replaced by a
single `?`, and the name is appended to the occurrence log; a bare `:`
not followed by an identifier character is copied verbatim. -/
theorem colon_token_spec (rest : List Char) :
    (headIsIdent rest = true →
      scanQuery false (':' :: rest) =
        ('?' :: (scanQuery false (rest.dropWhile isIdentChar)).1,
         String.mk (rest.takeWhile isIdentChar) ::
           (scanQuery false (rest.dropWhile isIdentChar)).2)) ∧
    (headIsIdent rest = false →
      scanQuery false (':' :: rest) =
        (':' :: (scanQuery false rest).1, (scanQuery false rest).2)) := by
  constructor
  · intro h
    unfold scanQuery
    simp only [scanCore, if_neg (show ¬(':' : Char) = '\'' from by decide),
      h, and_self, if_pos (by simp : false = false ∧ True ∧ True)]
    rw [scanCore_token rest []]
    simp
  · intro h
    unfold scanQuery
    simp only [scanCore, if_neg (show ¬(':' : Char) = '\'' from by decide),
      if_neg (show isIdentChar ':' = true → False from by decide), h]
    simp

/-- Witness for C3: both the token case (greedy name `abc123`, stops at
the space) and the bare-colon case. -/
theorem colon_token_spec_witness :
    (headIsIdent "abc123 = 1".data = true ∧
      scanQuery false (':' :: "abc123 = 1".data) =
        ('?' :: (scanQuery false ("abc123 = 1".data.dropWhile isIdentChar)).1,
         String.mk ("abc123 = 1".data.takeWhile isIdentChar) ::
           (scanQuery false ("abc123 = 1".data.dropWhile isIdentChar)).2)) ∧
    (headIsIdent " x".data = false ∧
      scanQuery false (':' :: " x".data) =
        (':' :: (scanQuery false " x".data).1, (scanQuery false " x".data).2)) :=
  ⟨⟨by decide, (colon_token_spec "abc123 = 1".data).1 (by decide)⟩,
   ⟨by decide, (colon_token_spec " x".data).2 (by decide)⟩⟩

/-- The scan's marker accounting: the rewritten text contains one `?`
per occurrence-log entry (counting the entry a token in progress still
owes) on top of the `?` characters already present in the input. -/
theorem scanCore_count (cs : List Char) : ∀ (st : Bool) (tok : Option (List Char)),
    (scanCore st tok cs).1.count '?' + tokPending tok =
      cs.count '?' + (scanCore st tok cs).2.length := by
  induction cs with
  | nil =>
    intro st tok
    cases tok <;> simp [scanCore, tokPending]
  | cons c rest ih =>
    intro st tok
    have hqm : ('\'' == '?') = false := by decide
    have hcm : ((':' : Char) == '?') = false := by decide
    have hmm : (('?' : Char) == '?') = true := by decide
    cases tok with
    | some acc =>
      by_cases hx : isIdentChar c = true
      · have hcq : (c == '?') = false := by
          cases hb : c == '?'
          · rfl
          · rw [show c = '?' from beq_iff_eq.mp hb] at hx
            exact absurd hx (by decide)
        have step : scanCore st (some acc) (c :: rest) =
            scanCore st (some (c :: acc)) rest := by
          simp [scanCore, hx]
        rw [step, List.count_cons, hcq]
        simpa [tokPending] using ih st (some (c :: acc))
      · have hx' : isIdentChar c = false := by
          cases h : isIdentChar c
          · rfl
          · exact absurd h hx
        by_cases hq : c = '\''
        · subst hq
          have step : scanCore st (some acc) ('\'' :: rest) =
              ('\'' :: (scanCore (!st) none rest).1,
               String.mk acc.reverse :: (scanCore (!st) none rest).2) := by
            simp [scanCore, hx']
          have := ih (!st) none
          rw [step]
          simp only [List.count_cons, hqm, tokPending, List.length_cons,
            if_false, Bool.false_eq_true] at *
          omega
        · by_cases hcol : st = false ∧ c = ':' ∧ headIsIdent rest = true
          · obtain ⟨hst, hc, hh⟩ := hcol
            subst hst
            subst hc
            have step : scanCore false (some acc) (':' :: rest) =
                ('?' :: (scanCore false (some []) rest).1,
                 String.mk acc.reverse :: (scanCore false (some []) rest).2) := by
              simp [scanCore, hx', hh]
            have := ih false (some [])
            rw [step]
            simp only [List.count_cons, hcm, hmm, tokPending, List.length_cons,
              if_true, if_false, Bool.false_eq_true] at *
            omega
          · have step : scanCore st (some acc) (c :: rest) =
                (c :: (scanCore st none rest).1,
                 String.mk acc.reverse :: (scanCore st none rest).2) := by
              simp [scanCore, hx', hq, hcol]
            have := ih st none
            rw [step]
            simp only [List.count_cons, tokPending, List.length_cons] at *
            omega
    | none =>
      by_cases hq : c = '\''
      · subst hq
        have step : scanCore st none ('\'' :: rest) =
            ('\'' :: (scanCore (!st) none rest).1, (scanCore (!st) none rest).2) := by
          simp [scanCore]
        have := ih (!st) none
        rw [step]
        simp only [List.count_cons, hqm, tokPending, if_false,
          Bool.false_eq_true] at *
        omega
      · by_cases hcol : st = false ∧ c = ':' ∧ headIsIdent rest = true
        · obtain ⟨hst, hc, hh⟩ := hcol
          subst hst
          subst hc
          have step : scanCore false none (':' :: rest) =
              ('?' :: (scanCore false (some []) rest).1,
               (scanCore false (some []) rest).2) := by
            simp [scanCore, hh]
          have := ih false (some [])
          rw [step]
          simp only [List.count_cons, hcm, hmm, tokPending, if_true, if_false,
            Bool.false_eq_true] at *
          omega
        · have step : scanCore st none (c :: rest) =
              (c :: (scanCore st none rest).1, (scanCore st none rest).2) := by
            simp [scanCore, hq, hcol]
          have := ih st none
          rw [step]
          simp only [List.count_cons, tokPending] at *
          omega

/-- Claim C1, amended: the number of `?` characters in the rewritten
text equals the number of `?` characters already present in the raw
query plus the length of the occurrence log — so it equals the length
of the occurrence log (and of the ordered parameter list, whose length
always equals the occurrence log's) exactly when the raw query
contains no `?` of its own. -/
theorem marker_count_amended (s : String) (q : Query) :
    (NewQuery s).rewrittenText.count '?' =
        s.data.count '?' + (NewQuery s).occurrences.length ∧
      q.getParsedParameters.length = q.occurrences.length := by
  constructor
  · have h := scanCore_count s.data false none
    simpa [NewQuery, scanQuery, tokPending] using h
  · simp [Query.getParsedParameters, resolveParameters]

/-- Claim C1 as stated is false: a raw query that already contains a
`?` character keeps it verbatim, so the rewritten text has one more
positional marker than the occurrence log has entries. -/
theorem marker_count_counterexample :
    ¬ ((NewQuery "SELECT * FROM table WHERE col1 = ?").rewrittenText.count '?' =
        (NewQuery "SELECT * FROM table WHERE col1 = ?").occurrences.length) := by
  decide

/-- A scan that is mid-token always flushes that token, so its
occurrence log is never empty. -/
theorem scanCore_some_ne_nil (cs : List Char) : ∀ (st : Bool) (acc : List Char),
    (scanCore st (some acc) cs).2 ≠ [] := by
  induction cs with
  | nil => intro st acc; simp [scanCore]
  | cons c rest ih =>
    intro st acc
    by_cases hx : isIdentChar c = true
    · rw [show scanCore st (some acc) (c :: rest) =
          scanCore st (some (c :: acc)) rest from by simp [scanCore, hx]]
      exact ih st (c :: acc)
    · have hx' : isIdentChar c = false := by
        cases h : isIdentChar c
        · rfl
        · exact absurd h hx
      rw [scanCore_flush st acc rest hx']
      simp

/-- A token-free scan that recognized no token copied every character
verbatim. -/
theorem scanCore_no_occurrence (cs : List Char) : ∀ st : Bool,
    (scanCore st none cs).2 = [] → (scanCore st none cs).1 = cs := by
  induction cs with
  | nil => intro st _; simp [scanCore]
  | cons c rest ih =>
    intro st hocc
    by_cases hq : c = '\''
    · subst hq
      rw [show scanCore st none ('\'' :: rest) =
          ('\'' :: (scanCore (!st) none rest).1, (scanCore (!st) none rest).2) from by
        simp [scanCore]] at hocc ⊢
      simp only [List.cons.injEq, true_and]
      exact ih (!st) hocc
    · by_cases hcol : st = false ∧ c = ':' ∧ headIsIdent rest = true
      · obtain ⟨hst, hc, hh⟩ := hcol
        subst hst
        subst hc
        rw [show scanCore false none (':' :: rest) =
            ('?' :: (scanCore false (some []) rest).1,
             (scanCore false (some []) rest).2) from by simp [scanCore, hh]] at hocc
        exact absurd hocc (scanCore_some_ne_nil rest false [])
      · rw [show scanCore st none (c :: rest) =
            (c :: (scanCore st none rest).1, (scanCore st none rest).2) from by
          simp [scanCore, hq, hcol]] at hocc ⊢
        simp only [List.cons.injEq, true_and]
        exact ih st hocc

/-- Claim C7: parsing is total by construction (`NewQuery` is a plain
function on all strings), and an input in which the scan recognizes no
token — an empty occurrence log — is returned unchanged. -/
theorem no_token_identity (s : String) :
    (NewQuery s).occurrences = [] → (NewQuery s).getParsedQuery = s := by
  intro h
  have h' : (scanCore false none s.data).2 = [] := h
  have := scanCore_no_occurrence s.data false h'
  show String.mk (scanCore false none s.data).1 = s
  rw [this]

/-- Witness for C7 at the repository's NoParameter test query. -/
theorem no_token_identity_witness :
    (NewQuery "SELECT * FROM table WHERE col1 = 1").occurrences = [] ∧
      (NewQuery "SELECT * FROM table WHERE col1 = 1").getParsedQuery =
        "SELECT * FROM table WHERE col1 = 1" :=
  ⟨by decide, no_token_identity "SELECT * FROM table WHERE col1 = 1" (by decide)⟩

/-- Claim C4: resolution walks the occurrence log in textual order —
same length, and equal names at two positions always resolve to equal
values — and the repository's own ParameterOrdering scenario (names in
sequence foo, bar, foo against {foo: "something", bar: "else"}) yields
the value sequence ["something", "else", "something"]. -/
theorem resolution_order_preserving (occ : List String) (reg : GoMap) (i j : Nat) :
    (resolveParameters occ reg).length = occ.length ∧
    (occ[i]? = occ[j]? →
      (resolveParameters occ reg)[i]? = (resolveParameters occ reg)[j]?) ∧
    ((NewQuery "SELECT * FROM table WHERE col1 = :foo AND col2 = :bar AND col3 = :foo").setValuesFromMap
        [("foo", GoValue.vstr "something"), ("bar", GoValue.vstr "else")]).getParsedParameters =
      [some (GoValue.vstr "something"), some (GoValue.vstr "else"),
       some (GoValue.vstr "something")] := by
  refine ⟨by simp [resolveParameters], ?_, rfl⟩
  intro h
  simp only [resolveParameters, List.getElem?_map, h]

/-- Witness for C4: positions 0 and 2 of the occurrence sequence
foo, bar, foo hold the same name, so they resolve to the same value. -/
theorem resolution_order_preserving_witness :
    (["foo", "bar", "foo"] : List String)[0]? = (["foo", "bar", "foo"] : List String)[2]? ∧
    (resolveParameters ["foo", "bar", "foo"] [("foo", GoValue.vstr "x")])[0]? =
      (resolveParameters ["foo", "bar", "foo"] [("foo", GoValue.vstr "x")])[2]? :=
  ⟨by decide,
   (resolution_order_preserving ["foo", "bar", "foo"] [("foo", GoValue.vstr "x")] 0 2).2.1
     (by decide)⟩

/-- Claim C5: tokenization and resolution are total functions of their
inputs (both are plain Lean functions, returning no error value), and
an occurrence whose name has no registered binding resolves to the
absent marker `none` at its position instead of failing. -/
theorem resolution_missing_marker (occ : List String) (reg : GoMap) (i : Nat) (n : String) :
    (resolveParameters occ reg).length = occ.length ∧
    (occ[i]? = some n → lookupMap reg n = none →
      (resolveParameters occ reg)[i]? = some none) := by
  refine ⟨by simp [resolveParameters], ?_⟩
  intro h hmiss
  simp [resolveParameters, List.getElem?_map, h, hmiss]

/-- Witness for C5: the single occurrence of an unregistered name
resolves to the absent marker. -/
theorem resolution_missing_marker_witness :
    (["missing"] : List String)[0]? = some "missing" ∧
    lookupMap [] "missing" = none ∧
    (resolveParameters ["missing"] [])[0]? = some none :=
  ⟨by decide, rfl,
   (resolution_missing_marker ["missing"] [] 0 "missing").2 (by decide) rfl⟩

theorem lookupMap_mapSet (m : GoMap) (k k' : String) (v : GoValue) :
    lookupMap (mapSet m k v) k' = if k = k' then some v else lookupMap m k' := by
  induction m with
  | nil => simp [mapSet, lookupMap]
  | cons p rest ih =>
    by_cases hp : p.1 = k
    · rw [show mapSet (p :: rest) k v = (k, v) :: rest from by simp [mapSet, hp]]
      by_cases hk : k = k'
      · simp [lookupMap, hk]
      · have hpk' : p.1 ≠ k' := fun h => hk (hp ▸ h)
        simp [lookupMap, hk, hpk']
    · rw [show mapSet (p :: rest) k v = p :: mapSet rest k v from by simp [mapSet, hp]]
      by_cases hpk : p.1 = k'
      · have hk : k ≠ k' := fun h => hp (h ▸ hpk)
        simp [lookupMap, hpk, hk]
      · simp [lookupMap, hpk, ih]

/-- Folding Go map assignments over a list of entries: the last entry
for a name wins, and names absent from the list keep their previous
binding. -/
theorem lookupMap_fold (m : List (String × GoValue)) :
    ∀ (reg : GoMap) (k : String),
    lookupMap (m.foldl (fun r p => mapSet r p.1 p.2) reg) k =
      match lookupLastPair m k with
      | some v => some v
      | none => lookupMap reg k := by
  induction m with
  | nil => intro reg k; simp [lookupLastPair]
  | cons p rest ih =>
    intro reg k
    rw [List.foldl_cons, ih (mapSet reg p.1 p.2) k]
    show _ = (match lookupLastPair (p :: rest) k with
      | some v => some v
      | none => lookupMap reg k)
    rw [show lookupLastPair (p :: rest) k =
        (match lookupLastPair rest k with
         | some v => some v
         | none => if p.1 = k then some p.2 else none) from rfl,
      lookupMap_mapSet]
    cases lookupLastPair rest k with
    | none =>
      by_cases hp : p.1 = k
      · simp [hp]
      · simp [hp]
    | some v0 => simp

/-- Claim C8: merging a mapping into the registry is a pure merge —
every entry of the new mapping wins over an existing binding of the
same name, and previously set names absent from the new mapping keep
their values — and in particular merging {A:1, C:9} and then {A:2, B:3}
leaves A bound to 2, B to 3, and C to 9. -/
theorem registry_merge_semantics (q : Query) (m : GoMap) (k : String) :
    (lookupMap (q.setValuesFromMap m).registry k =
      match lookupLastPair m k with
      | some v => some v
      | none => lookupMap q.registry k) ∧
    (lookupMap (((NewQuery "SELECT :A, :B, :C").setValuesFromMap
          [("A", GoValue.vint 1), ("C", GoValue.vint 9)]).setValuesFromMap
          [("A", GoValue.vint 2), ("B", GoValue.vint 3)]).registry "A" =
        some (GoValue.vint 2) ∧
      lookupMap (((NewQuery "SELECT :A, :B, :C").setValuesFromMap
          [("A", GoValue.vint 1), ("C", GoValue.vint 9)]).setValuesFromMap
          [("A", GoValue.vint 2), ("B", GoValue.vint 3)]).registry "B" =
        some (GoValue.vint 3) ∧
      lookupMap (((NewQuery "SELECT :A, :B, :C").setValuesFromMap
          [("A", GoValue.vint 1), ("C", GoValue.vint 9)]).setValuesFromMap
          [("A", GoValue.vint 2), ("B", GoValue.vint 3)]).registry "C" =
        some (GoValue.vint 9)) :=
  ⟨lookupMap_fold m q.registry k, rfl, rfl, rfl⟩

/-- The pairing loop errors exactly when some name position holds a
non-string (even-length inputs; the even check runs first in the
caller). -/
theorem buildPairs_error (m0 : GoMap) (args : List GoValue) :
    args.length % 2 = 0 →
    isError (buildPairs m0 args) = hasBadKey args := by
  induction m0, args using buildPairs.induct with
  | case1 m => intro _; simp [buildPairs, hasBadKey, isError]
  | case2 m k v rest ih =>
    intro h
    simp only [List.length_cons] at h
    have hrest : rest.length % 2 = 0 := by omega
    simp only [buildPairs, hasBadKey, GoValue.isStr, Bool.not_true,
      Bool.false_or]
    exact ih hrest
  | case3 m a b rest h1 =>
    intro _
    cases a with
    | vstr s => exact absurd rfl (h1 s)
    | vint n => simp [buildPairs, hasBadKey, isError, GoValue.isStr]
    | vmap e => simp [buildPairs, hasBadKey, isError, GoValue.isStr]
    | vnil => simp [buildPairs, hasBadKey, isError, GoValue.isStr]
  | case4 m a =>
    intro h
    simp at h

/-- When the pairing loop succeeds, the resulting map binds each name
to its last paired value, and names never paired keep their binding
from the initial map. -/
theorem buildPairs_lookup (m0 : GoMap) (args : List GoValue) :
    ∀ m : GoMap, args.length % 2 = 0 → buildPairs m0 args = .ok m →
    ∀ k, lookupMap m k =
      match lookupLastPair (pairsOf args) k with
      | some v => some v
      | none => lookupMap m0 k := by
  induction m0, args using buildPairs.induct with
  | case1 m =>
    intro m' _ heq k
    injection heq with h
    subst h
    simp [pairsOf, lookupLastPair]
  | case2 m s v rest ih =>
    intro m' hlen heq k
    have hrest : rest.length % 2 = 0 := by
      simp only [List.length_cons] at hlen
      omega
    rw [show buildPairs m (GoValue.vstr s :: v :: rest) =
        buildPairs (mapSet m s v) rest from rfl] at heq
    rw [ih m' hrest heq k,
      show pairsOf (GoValue.vstr s :: v :: rest) = (s, v) :: pairsOf rest from rfl,
      show lookupLastPair ((s, v) :: pairsOf rest) k =
        (match lookupLastPair (pairsOf rest) k with
         | some w => some w
         | none => if s = k then some v else none) from rfl,
      lookupMap_mapSet]
    cases lookupLastPair (pairsOf rest) k with
    | some w => simp
    | none =>
      by_cases hs : s = k
      · simp [hs]
      · simp [hs]
  | case3 m a b rest h1 =>
    intro m' _ heq k
    cases a with
    | vstr s => exact absurd rfl (h1 s)
    | vint n => simp [buildPairs] at heq
    | vmap e => simp [buildPairs] at heq
    | vnil => simp [buildPairs] at heq
  | case4 m a =>
    intro m' h _ _
    simp at h

/-- Claim C6: the decorator's flat-argument conversion errors exactly
on a malformed list — odd length (a single element that is not itself
a mapping included) or a non-string in a name position of an
even-length list; a single mapping element passes straight through;
and a successful conversion of an even-length list binds each name
position's string to its paired value, later pairs winning. -/
theorem convertArgsToMap_spec (args : List GoValue) :
    (isError (convertArgsToMap args) =
      (((args.length % 2 == 1) && !isSingleMap args) ||
       ((args.length % 2 == 0) && hasBadKey args))) ∧
    (∀ m, args = [GoValue.vmap m] → convertArgsToMap args = .ok (some m)) ∧
    (∀ m k, args.length % 2 = 0 → convertArgsToMap args = .ok (some m) →
      lookupMap m k = lookupLastPair (pairsOf args) k) := by
  have hmap : ∀ e : Except String GoMap, isError (e.map some) = isError e := by
    intro e
    cases e <;> rfl
  refine ⟨?_, ?_, ?_⟩
  · match args with
    | [] => decide
    | [a] =>
      cases a with
      | vstr s => simp [convertArgsToMap, isError, isSingleMap, hasBadKey, GoValue.isStr]
      | vint n => simp [convertArgsToMap, isError, isSingleMap, hasBadKey, GoValue.isStr]
      | vmap e => simp [convertArgsToMap, isError, isSingleMap, hasBadKey]
      | vnil => simp [convertArgsToMap, isError, isSingleMap, hasBadKey, GoValue.isStr]
    | a :: b :: rest =>
      by_cases hpar : (a :: b :: rest).length % 2 = 0
      · have hpar2 : (rest.length + 1 + 1) % 2 = 0 := by simpa using hpar
        rw [show convertArgsToMap (a :: b :: rest) =
            (buildPairs [] (a :: b :: rest)).map some from by
          simp [convertArgsToMap, hpar2],
          hmap, buildPairs_error [] (a :: b :: rest) hpar]
        have h1 : ((a :: b :: rest).length % 2 == 1) = false := by
          simp [hpar2]
        have h0 : ((a :: b :: rest).length % 2 == 0) = true := by
          simp [hpar2]
        rw [h1, h0]
        simp
      · have hodd2 : (rest.length + 1 + 1) % 2 = 1 := by
          have : (a :: b :: rest).length % 2 = 1 := by omega
          simpa using this
        rw [show convertArgsToMap (a :: b :: rest) =
            .error "number of arguments passed to parameterized query is not correct, expected an even number of arguments" from by
          simp [convertArgsToMap, hodd2]]
        have h1 : ((a :: b :: rest).length % 2 == 1) = true := by simp [hodd2]
        have h0 : ((a :: b :: rest).length % 2 == 0) = false := by simp [hodd2]
        rw [h1, h0]
        simp [isError, isSingleMap]
  · intro m h
    subst h
    rfl
  · intro m k hlen heq
    match args, hlen, heq with
    | [], _, heq =>
      rw [show convertArgsToMap [] = .ok none from rfl] at heq
      simp at heq
    | [a], hlen, _ => simp at hlen
    | a :: b :: rest, hlen, heq =>
      have hlen2 : (rest.length + 1 + 1) % 2 = 0 := by simpa using hlen
      rw [show convertArgsToMap (a :: b :: rest) =
          (buildPairs [] (a :: b :: rest)).map some from by
        simp [convertArgsToMap, hlen2]] at heq
      cases hb : buildPairs [] (a :: b :: rest) with
      | error e => rw [hb] at heq; simp [Except.map] at heq
      | ok m2 =>
        rw [hb] at heq
        simp only [Except.map] at heq
        injection heq with heq'
        injection heq' with heq''
        subst heq''
        have := buildPairs_lookup [] (a :: b :: rest) m2 hlen hb k
        rw [this]
        cases lookupLastPair (pairsOf (a :: b :: rest)) k <;> simp [lookupMap]

/-- Witness for C6: a single-element mapping argument list passes
straight through unchanged. -/
theorem convertArgsToMap_spec_witness :
    convertArgsToMap [GoValue.vmap [("id", GoValue.vint 1)]] =
      .ok (some [("id", GoValue.vint 1)]) :=
  (convertArgsToMap_spec [GoValue.vmap [("id", GoValue.vint 1)]]).2.1
    [("id", GoValue.vint 1)] rfl

/-- Claim C9 as stated is false for the statement wrapper: a prepared
query with one marker, executed with an empty argument list, has a
nonempty resolved parameter list (one absent marker), yet the wrapper
makes the explicit zero-argument driver call instead of passing that
list. -/
theorem wrapper_dispatch_counterexample :
    (stmtPrepare "SELECT * FROM t WHERE a = :name").getParsedParameters = [none] ∧
    stmtExecute (stmtPrepare "SELECT * FROM t WHERE a = :name") [] =
      .ok (StmtCall.zeroArg, stmtPrepare "SELECT * FROM t WHERE a = :name") ∧
    StmtCall.zeroArg ≠
      StmtCall.withArgs
        (stmtPrepare "SELECT * FROM t WHERE a = :name").getParsedParameters := by
  refine ⟨rfl, rfl, ?_⟩
  intro h
  cases h

/-- Claim C9, amended: the DB-object and connection wrapper methods
dispatch as claimed — zero-argument call exactly when the resolved
list is empty, full resolved list verbatim otherwise.  The statement
wrapper instead dispatches on the converted argument map: when the
conversion yields no map (empty or nil argument list) it makes the
zero-argument call even if the prepared query has markers, and when a
map is present it merges it and passes the full resolved list. -/
theorem wrapper_dispatch_amended :
    (∀ (query : String) (args : List GoValue) (pq : String)
        (params : List (Option GoValue)),
      parseQueryArgs query args = .ok (pq, params) →
      executeWrapper query args =
        .ok (if params.length = 0 then DriverCall.zeroArg pq
             else DriverCall.withArgs pq params)) ∧
    (∀ (q : Query) (args : List GoValue),
      (convertArgsToMap args = .ok none →
        stmtExecute q args = .ok (StmtCall.zeroArg, q)) ∧
      (∀ m, convertArgsToMap args = .ok (some m) →
        stmtExecute q args =
          .ok (StmtCall.withArgs (q.setValuesFromMap m).getParsedParameters,
               q.setValuesFromMap m))) := by
  refine ⟨?_, ?_⟩
  · intro query args pq params h
    rw [show executeWrapper query args =
        (match parseQueryArgs query args with
         | .error e => .error e
         | .ok (pq, params) =>
           if params.length = 0 then .ok (.zeroArg pq)
           else .ok (.withArgs pq params)) from rfl, h]
    by_cases hp : params.length = 0
    · simp [hp]
    · simp [hp]
  · intro q args
    constructor
    · intro h
      rw [show stmtExecute q args =
          (match convertArgsToMap args with
           | .error e => .error e
           | .ok none => .ok (.zeroArg, q)
           | .ok (some m) =>
             .ok (.withArgs (q.setValuesFromMap m).getParsedParameters,
                  q.setValuesFromMap m)) from rfl, h]
    · intro m h
      rw [show stmtExecute q args =
          (match convertArgsToMap args with
           | .error e => .error e
           | .ok none => .ok (.zeroArg, q)
           | .ok (some m) =>
             .ok (.withArgs (q.setValuesFromMap m).getParsedParameters,
                  q.setValuesFromMap m)) from rfl, h]

/-- Witness for the amended C9: a no-parameter query through the DB
wrapper, a parameterized query through the DB wrapper, and both
statement-wrapper branches, at concrete inputs. -/
theorem wrapper_dispatch_amended_witness :
    executeWrapper "SELECT 1" [] =
      .ok (if (([] : List (Option GoValue))).length = 0
           then DriverCall.zeroArg "SELECT 1"
           else DriverCall.withArgs "SELECT 1" []) ∧
    executeWrapper "SELECT * FROM t WHERE a = :a" [GoValue.vstr "a", GoValue.vint 7] =
      .ok (if ([some (GoValue.vint 7)] : List (Option GoValue)).length = 0
           then DriverCall.zeroArg "SELECT * FROM t WHERE a = ?"
           else DriverCall.withArgs "SELECT * FROM t WHERE a = ?" [some (GoValue.vint 7)]) ∧
    stmtExecute (NewQuery "x = :a") [] = .ok (StmtCall.zeroArg, NewQuery "x = :a") ∧
    stmtExecute (NewQuery "x = :a") [GoValue.vstr "a", GoValue.vint 1] =
      .ok (StmtCall.withArgs
             ((NewQuery "x = :a").setValuesFromMap [("a", GoValue.vint 1)]).getParsedParameters,
           (NewQuery "x = :a").setValuesFromMap [("a", GoValue.vint 1)]) :=
  ⟨wrapper_dispatch_amended.1 "SELECT 1" [] "SELECT 1" [] rfl,
   wrapper_dispatch_amended.1 "SELECT * FROM t WHERE a = :a"
     [GoValue.vstr "a", GoValue.vint 7] "SELECT * FROM t WHERE a = ?"
     [some (GoValue.vint 7)] rfl,
   (wrapper_dispatch_amended.2 (NewQuery "x = :a") []).1 rfl,
   (wrapper_dispatch_amended.2 (NewQuery "x = :a")
     [GoValue.vstr "a", GoValue.vint 1]).2 [("a", GoValue.vint 1)] rfl⟩

/-- Claim C10: a statement wrapper's bindings persist across
executions — after an execution whose arguments bind `n` to `v`, a
later execution whose arguments produce a map not mentioning `n`
still resolves `n` to `v` at each of `n`'s occurrence positions of the
one parsed query the wrapper reuses, whose registry is merged into and
never cleared. -/
theorem statement_registry_persistence
    (q0 q1 q2 : Query) (args1 args2 : List GoValue) (m1 m2 : GoMap)
    (n : String) (v : GoValue) (c1 c2 : StmtCall) (i : Nat)
    (h1 : convertArgsToMap args1 = .ok (some m1))
    (h2 : lookupLastPair m1 n = some v)
    (h3 : convertArgsToMap args2 = .ok (some m2))
    (h4 : lookupLastPair m2 n = none)
    (e1 : stmtExecute q0 args1 = .ok (c1, q1))
    (e2 : stmtExecute q1 args2 = .ok (c2, q2))
    (h5 : q0.occurrences[i]? = some n) :
    lookupMap q2.registry n = some v ∧
    c2 = StmtCall.withArgs q2.getParsedParameters ∧
    q2.getParsedParameters[i]? = some (some v) := by
  rw [show stmtExecute q0 args1 =
      (match convertArgsToMap args1 with
       | .error e => .error e
       | .ok none => .ok (.zeroArg, q0)
       | .ok (some m) =>
         .ok (.withArgs (q0.setValuesFromMap m).getParsedParameters,
              q0.setValuesFromMap m)) from rfl, h1] at e1
  injection e1 with e1'
  have hq1 : q1 = q0.setValuesFromMap m1 := (congrArg Prod.snd e1').symm
  rw [show stmtExecute q1 args2 =
      (match convertArgsToMap args2 with
       | .error e => .error e
       | .ok none => .ok (.zeroArg, q1)
       | .ok (some m) =>
         .ok (.withArgs (q1.setValuesFromMap m).getParsedParameters,
              q1.setValuesFromMap m)) from rfl, h3] at e2
  injection e2 with e2'
  have hq2 : q2 = q1.setValuesFromMap m2 := (congrArg Prod.snd e2').symm
  have hc2 : c2 = StmtCall.withArgs (q1.setValuesFromMap m2).getParsedParameters :=
    (congrArg Prod.fst e2').symm
  have hocc : q2.occurrences = q0.occurrences := by
    rw [hq2, hq1]
    rfl
  have hreg : lookupMap q2.registry n = some v := by
    rw [hq2, show (q1.setValuesFromMap m2).registry =
        m2.foldl (fun r p => mapSet r p.1 p.2) q1.registry from rfl,
      lookupMap_fold m2 q1.registry n, h4, hq1,
      show (q0.setValuesFromMap m1).registry =
        m1.foldl (fun r p => mapSet r p.1 p.2) q0.registry from rfl,
      lookupMap_fold m1 q0.registry n, h2]
  refine ⟨hreg, by rw [hc2, hq2], ?_⟩
  show (resolveParameters q2.occurrences q2.registry)[i]? = some (some v)
  rw [resolveParameters, List.getElem?_map, hocc, h5, Option.map_some', hreg]

/-- Witness for C10: prepare a two-parameter statement, execute it
binding A and B, then execute it again binding only B; position 0
(the occurrence of A) still receives A's earlier value. -/
theorem statement_registry_persistence_witness :
    lookupMap (((stmtPrepare "SELECT * FROM t WHERE a = :A AND b = :B").setValuesFromMap
        [("A", GoValue.vint 1), ("B", GoValue.vint 2)]).setValuesFromMap
        [("B", GoValue.vint 5)]).registry "A" = some (GoValue.vint 1) ∧
    StmtCall.withArgs
        ((((stmtPrepare "SELECT * FROM t WHERE a = :A AND b = :B").setValuesFromMap
            [("A", GoValue.vint 1), ("B", GoValue.vint 2)]).setValuesFromMap
            [("B", GoValue.vint 5)]).getParsedParameters) =
      StmtCall.withArgs
        ((((stmtPrepare "SELECT * FROM t WHERE a = :A AND b = :B").setValuesFromMap
            [("A", GoValue.vint 1), ("B", GoValue.vint 2)]).setValuesFromMap
            [("B", GoValue.vint 5)]).getParsedParameters) ∧
    ((((stmtPrepare "SELECT * FROM t WHERE a = :A AND b = :B").setValuesFromMap
        [("A", GoValue.vint 1), ("B", GoValue.vint 2)]).setValuesFromMap
        [("B", GoValue.vint 5)]).getParsedParameters)[0]? =
      some (some (GoValue.vint 1)) :=
  statement_registry_persistence
    (stmtPrepare "SELECT * FROM t WHERE a = :A AND b = :B")
    ((stmtPrepare "SELECT * FROM t WHERE a = :A AND b = :B").setValuesFromMap
      [("A", GoValue.vint 1), ("B", GoValue.vint 2)])
    (((stmtPrepare "SELECT * FROM t WHERE a = :A AND b = :B").setValuesFromMap
      [("A", GoValue.vint 1), ("B", GoValue.vint 2)]).setValuesFromMap
      [("B", GoValue.vint 5)])
    [GoValue.vstr "A", GoValue.vint 1, GoValue.vstr "B", GoValue.vint 2]
    [GoValue.vstr "B", GoValue.vint 5]
    [("A", GoValue.vint 1), ("B", GoValue.vint 2)] [("B", GoValue.vint 5)]
    "A" (GoValue.vint 1)
    (StmtCall.withArgs
      (((stmtPrepare "SELECT * FROM t WHERE a = :A AND b = :B").setValuesFromMap
        [("A", GoValue.vint 1), ("B", GoValue.vint 2)]).getParsedParameters))
    (StmtCall.withArgs
      ((((stmtPrepare "SELECT * FROM t WHERE a = :A AND b = :B").setValuesFromMap
        [("A", GoValue.vint 1), ("B", GoValue.vint 2)]).setValuesFromMap
        [("B", GoValue.vint 5)]).getParsedParameters))
    0 rfl rfl rfl rfl rfl rfl rfl

end NamedParam
